import Mathlib

/-!
Shallow embedding of the docs route-resolution code in
`src/app/docs/[...slug]/page.tsx` of the concordium-tina-docs repository:
`generateStaticParams` (pagination over the Tina `docsConnection` query and
path-to-slug normalisation), the slug keys of `generateMetadata` and
`DocsPage`, and the SEO-defaulting logic of `generateMetadata`.

JavaScript strings are modelled as `List Char` (`Str`); `undefined`/`null`
values as `Option`; a thrown exception from the content-store client as
`Except.error`; the unbounded `while` loop by an explicit fuel parameter,
where exhausting the fuel (`none`) represents an execution that is still
looping.
-/

namespace TinaDocs

/-- JavaScript strings, modelled as their character sequences. -/
abbrev Str := List Char

/-- Coerce a Lean string literal to the model type. -/
def strOf (s : String) : Str := s.data

/-- JavaScript truthiness of a string-or-undefined value: `undefined`,
`null` and the empty string are falsy (`!!path`, `!seo?.canonicalUrl`). -/
def truthy : Option Str → Bool
  | none => false
  | some s => !s.isEmpty

/-- `path.replace(/\.mdx?$/, "")`: remove one trailing `.mdx` or `.md`
suffix (the regex is anchored at the end and greedy, so `.mdx` wins when
both could match). -/
def stripMdExt (p : Str) : Str :=
  if (strOf ".mdx").isSuffixOf p then p.take (p.length - 4)
  else if (strOf ".md").isSuffixOf p then p.take (p.length - 3)
  else p

/-- `withoutExt.replace(/^content\/docs\//, "")`: remove the leading
content-root, when present. -/
def removeDocsRoot (p : Str) : Str :=
  if (strOf "content/docs/").isPrefixOf p then p.drop (strOf "content/docs/").length
  else p

/-- JavaScript `s.split("/")` with a one-character separator: the empty
string yields `[""]`, adjacent separators yield empty segments. -/
def splitSlash : Str → List Str
  | [] => [[]]
  | c :: rest =>
    let r := splitSlash rest
    if c = '/' then [] :: r
    else (c :: r.headI) :: r.tail

/-- The slug derivation applied to one storage path:
strip the extension, strip the content root, split on `/`. -/
def slugOfPath (p : Str) : List Str :=
  splitSlash (removeDocsRoot (stripMdExt p))

/-- `_sys` of a record: its storage path (`undefined` modelled by `none`). -/
structure SysInfo where
  path : Option Str
deriving DecidableEq

/-- A document node as seen by the connection query. -/
structure Node where
  sys : SysInfo
deriving DecidableEq

/-- One edge of the connection; its `node` may be `null`. -/
structure Edge where
  node : Option Node
deriving DecidableEq

/-- `pageInfo` of a connection page. -/
structure PageInfo where
  hasNextPage : Bool
  endCursor : Str
deriving DecidableEq

/-- One `docsConnection` response: `edges` may be `null`/absent. -/
structure DocsConnection where
  edges : Option (List (Option Edge))
  pageInfo : PageInfo
deriving DecidableEq

/-- A route parameter `{ slug: string[] }` emitted for the generator. -/
structure RouteParam where
  slug : List Str
deriving DecidableEq

/-- The content-store client: `client.queries.docsConnection`, called
without a cursor (`none`) for the first page and with `after = some c`
afterwards; `Except.error` models a thrown fetch error. -/
def Store := Option Str → Except Unit DocsConnection

/-- `edge?.node?._sys.path`: optional-chaining read of the storage path. -/
def pathOfEdge (e : Option Edge) : Option Str :=
  match e with
  | none => none
  | some e =>
    match e.node with
    | none => none
    | some n => n.sys.path

/-- The mapping stage of `generateStaticParams`:
`.map(edge => edge?.node?._sys.path).filter(p => !!p).map(path => ...)`. -/
def toRoutes (edges : List (Option Edge)) : List RouteParam :=
  ((edges.map pathOfEdge).filter truthy).map fun p =>
    { slug := slugOfPath (p.getD []) }

/-- The `while (pageInfo.hasNextPage)` pagination loop, with fuel:
`none` models an execution that has not finished looping, `some (.error _)`
a thrown fetch error, `some (.ok acc)` normal completion. -/
def collectLoop (store : Store) :
    Nat → List (Option Edge) → PageInfo → Option (Except Unit (List (Option Edge)))
  | fuel, acc, pi =>
    match pi.hasNextPage, fuel with
    | false, _ => some (.ok acc)
    | true, 0 => none
    | true, fuel + 1 =>
      match store (some pi.endCursor) with
      | .error e => some (.error e)
      | .ok conn => collectLoop store fuel (acc ++ conn.edges.getD []) conn.pageInfo

/-- The fetch-and-paginate phase of `generateStaticParams`: fetch the
first page, then run the loop. `some (.error _)` is a thrown fetch error;
`none` models a run still inside the loop. -/
def collectAll (store : Store) (fuel : Nat) :
    Option (Except Unit (List (Option Edge))) :=
  match store none with
  | .error e => some (.error e)
  | .ok conn => collectLoop store fuel (conn.edges.getD []) conn.pageInfo

/-- The body of the `try` block of `generateStaticParams`: collect every
edge, then map to route params. -/
def resolveRun (store : Store) (fuel : Nat) : Option (Except Unit (List RouteParam)) :=
  match collectAll store fuel with
  | none => none
  | some (.error e) => some (.error e)
  | some (.ok edges) => some (.ok (toRoutes edges))

/-- `generateStaticParams` with its `try`/`catch`: a thrown error is caught
(and logged) and an empty array returned instead. -/
def generateStaticParams (store : Store) (fuel : Nat) : Option (List RouteParam) :=
  match resolveRun store fuel with
  | none => none
  | some (.error _) => some []
  | some (.ok routes) => some routes

/-- A store holding a single document with the given storage path. -/
def singleRecordStore (p : Str) : Store :=
  fun _ => .ok ⟨some [some ⟨some ⟨⟨some p⟩⟩⟩], ⟨false, []⟩⟩

/-- A store that erroneously reports `hasNextPage = true` on every page. -/
def alwaysNextStore : Store :=
  fun _ => .ok ⟨some [], ⟨true, strOf "c"⟩⟩

/-- Whether, starting from `pi`, the chain of page fetches stops within
`n` further fetches: either the current page reports no next page, or the
next fetch throws, or the chain after it stops within `n - 1`. -/
def haltsWithin (store : Store) : Nat → PageInfo → Prop
  | 0, pi => pi.hasNextPage = false
  | n + 1, pi =>
    pi.hasNextPage = false ∨
      match store (some pi.endCursor) with
      | .error _ => True
      | .ok conn => haltsWithin store n conn.pageInfo

/-- `(params.slug || []).join("/")`: JavaScript array join with `"/"`. -/
def joinSlash : List Str → Str
  | [] => []
  | [s] => s
  | s :: rest => s ++ '/' :: joinSlash rest

/-- The `params` object handed to `generateMetadata` and `DocsPage`;
`slug` may be absent. -/
structure Params where
  slug : Option (List Str)

/-- Line 59: the document key `generateMetadata` fetches by,
`(params.slug || []).join("/")`. -/
def metadataSlugKey (p : Params) : Str := joinSlash (p.slug.getD [])

/-- Line 90: the document key `DocsPage` fetches by,
`(params.slug || []).join("/")`. -/
def docsPageSlugKey (p : Params) : Str := joinSlash (p.slug.getD [])

/-- The `seo` object of a docs record; `canonicalUrl` may be absent. -/
structure DocsSeo where
  canonicalUrl : Option Str
deriving DecidableEq

/-- The default canonical URL, `` `${siteUrl}/tinadocs/docs/${slug}` ``. -/
def canonicalDefault (siteUrl slug : Str) : Str :=
  siteUrl ++ strOf "/tinadocs/docs/" ++ slug

/-- The seo-defaulting statements of `generateMetadata`: when `seo` is
absent a fresh object with the default canonical URL is installed; when it
is present but `seo?.canonicalUrl` is falsy the default is written into it;
otherwise the record's seo is kept as is. -/
def withCanonical (siteUrl slug : Str) : Option DocsSeo → DocsSeo
  | none => { canonicalUrl := some (canonicalDefault siteUrl slug) }
  | some s =>
    if truthy s.canonicalUrl then s
    else { s with canonicalUrl := some (canonicalDefault siteUrl slug) }

/-- The metadata object returned for a docs page. -/
structure PageMetadata where
  canonicalUrl : Option Str
deriving DecidableEq

/-- Modelled from the spec: `getSeo` (imported from `@/utils/metadata/getSeo`,
whose source is not part of the provided files) "derives a small metadata
object (title, canonical URL, fallback SEO defaults)" from the record's seo;
in particular the produced metadata object's canonical URL is the seo
object's `canonicalUrl`. -/
def getSeo (seo : DocsSeo) : PageMetadata :=
  { canonicalUrl := seo.canonicalUrl }

/-- `generateMetadata`: join the slug, fetch the record's seo by that key
(`fetchSeo` abstracts `fetchTinaData`), default its canonical URL, and
derive the metadata object. -/
def generateMetadata (siteUrl : Str) (fetchSeo : Str → Option DocsSeo)
    (params : Params) : PageMetadata :=
  getSeo (withCanonical siteUrl (metadataSlugKey params)
    (fetchSeo (metadataSlugKey params)))

/-- Normalise one connection response: a `null`/absent `edges` becomes an
explicit empty list. -/
def normConn (c : DocsConnection) : DocsConnection :=
  { c with edges := some (c.edges.getD []) }

/-- Normalise every response of a store. -/
def normStore (store : Store) : Store :=
  fun cur => (store cur).map normConn

/-! ### Helper lemmas -/

theorem strOf_mdx : strOf ".mdx" = ['.', 'm', 'd', 'x'] := rfl

theorem strOf_md : strOf ".md" = ['.', 'm', 'd'] := rfl

theorem mdx_not_suffixOf_append_md (s : Str) :
    ¬ ((strOf ".mdx").isSuffixOf (s ++ strOf ".md") = true) := by
  rw [strOf_mdx, strOf_md, List.isSuffixOf_iff_suffix]
  rintro ⟨t, ht⟩
  have hrev := congrArg List.reverse ht
  rw [List.reverse_append, List.reverse_append] at hrev
  have h4 : (['.', 'm', 'd', 'x'] : Str).reverse = ['x', 'd', 'm', '.'] := rfl
  have h3 : (['.', 'm', 'd'] : Str).reverse = ['d', 'm', '.'] := rfl
  rw [h4, h3] at hrev
  have hx : 'x' = 'd' := (List.cons.injEq _ _ _ _).mp hrev |>.1
  exact absurd hx (by decide)

theorem stripMdExt_append_mdx (s : Str) : stripMdExt (s ++ strOf ".mdx") = s := by
  have hs : (strOf ".mdx").isSuffixOf (s ++ strOf ".mdx") = true :=
    List.isSuffixOf_iff_suffix.mpr (List.suffix_append s (strOf ".mdx"))
  have h4 : (strOf ".mdx").length = 4 := rfl
  rw [stripMdExt, if_pos hs, List.length_append, h4, Nat.add_sub_cancel]
  exact List.take_left' rfl

theorem stripMdExt_append_md (s : Str) : stripMdExt (s ++ strOf ".md") = s := by
  have hs : (strOf ".md").isSuffixOf (s ++ strOf ".md") = true :=
    List.isSuffixOf_iff_suffix.mpr (List.suffix_append s (strOf ".md"))
  have h3 : (strOf ".md").length = 3 := rfl
  rw [stripMdExt, if_neg (mdx_not_suffixOf_append_md s), if_pos hs,
    List.length_append, h3, Nat.add_sub_cancel]
  exact List.take_left' rfl

theorem removeDocsRoot_append (s : Str) :
    removeDocsRoot (strOf "content/docs/" ++ s) = s := by
  have hp : (strOf "content/docs/").isPrefixOf (strOf "content/docs/" ++ s) = true := by
    simp
  rw [removeDocsRoot, if_pos hp]
  exact List.drop_left _ _

theorem splitSlash_ne_nil (s : Str) : splitSlash s ≠ [] := by
  cases s with
  | nil => simp [splitSlash]
  | cons c rest =>
    simp only [splitSlash]
    split <;> simp

theorem splitSlash_no_sep (s : Str) (h : '/' ∉ s) : splitSlash s = [s] := by
  induction s with
  | nil => rfl
  | cons c rest ih =>
    have hc : ¬ (c = '/') := fun hc => h (hc ▸ List.mem_cons_self c rest)
    have hrest : '/' ∉ rest := fun hm => h (List.mem_cons_of_mem c hm)
    simp [splitSlash, hc, ih hrest]

theorem splitSlash_append_sep (a rest : Str) (h : '/' ∉ a) :
    splitSlash (a ++ '/' :: rest) = a :: splitSlash rest := by
  induction a with
  | nil => simp [splitSlash]
  | cons c a ih =>
    have hc : ¬ (c = '/') := fun hc => h (hc ▸ List.mem_cons_self c a)
    have ha : '/' ∉ a := fun hm => h (List.mem_cons_of_mem c hm)
    simp [splitSlash, hc, ih ha]

/-- Evaluation of the resolver on a one-record, one-page store whose
record's storage path is truthy. -/
theorem singleRecord_eval (p : Str) (hp : p.isEmpty = false) (fuel : Nat) :
    generateStaticParams (singleRecordStore p) fuel
      = some [{ slug := slugOfPath p }] := by
  simp [generateStaticParams, resolveRun, collectAll, singleRecordStore,
    collectLoop, toRoutes, pathOfEdge, truthy, hp]

/-! ### Claim theorems -/

/-- C9: `generateMetadata` (line 59) and `DocsPage` (line 90) derive the
document key from `params` by the same expression,
`(params.slug || []).join("/")`, so metadata and page are always fetched
for the same document. -/
theorem metadata_and_page_same_slug_key (p : Params) :
    metadataSlugKey p = docsPageSlugKey p := rfl

/-- C4: the extension-stripping step `path.replace(/\.mdx?$/, "")`
removes a trailing `.md` and a trailing `.mdx` alike, and the derived
slug is computed from the path with that trailing extension removed. -/
theorem strip_md_and_mdx_extensions (s : Str) :
    stripMdExt (s ++ strOf ".md") = s
  ∧ stripMdExt (s ++ strOf ".mdx") = s
  ∧ slugOfPath (s ++ strOf ".md") = splitSlash (removeDocsRoot s)
  ∧ slugOfPath (s ++ strOf ".mdx") = splitSlash (removeDocsRoot s) := by
  refine ⟨stripMdExt_append_md s, stripMdExt_append_mdx s, ?_, ?_⟩
  · simp only [slugOfPath, stripMdExt_append_md]
  · simp only [slugOfPath, stripMdExt_append_mdx]

/-- C2: if a page fetch throws anywhere during the run, the caught error
makes `generateStaticParams` return the empty array — a returned value,
never a partial array and never a propagated exception. -/
theorem fetch_failure_yields_empty (store : Store) (fuel : Nat) (e : Unit)
    (h : resolveRun store fuel = some (.error e)) :
    generateStaticParams store fuel = some [] := by
  simp [generateStaticParams, h]

/-- A store with two records on page 1, whose page-2 fetch throws. -/
def failPage2Store : Store := fun cur =>
  match cur with
  | none => .ok ⟨some [some ⟨some ⟨⟨some (strOf "content/docs/a.mdx")⟩⟩⟩,
                       some ⟨some ⟨⟨some (strOf "content/docs/b.mdx")⟩⟩⟩],
                 ⟨true, strOf "c1"⟩⟩
  | some _ => .error ()

/-- Witness for C2: on a store whose second page fetch throws, the result
is the empty array, not the two routes collected from page 1. -/
theorem fetch_failure_yields_empty_witness :
    resolveRun failPage2Store 5 = some (.error ())
  ∧ generateStaticParams failPage2Store 5 = some [] :=
  ⟨rfl, fetch_failure_yields_empty failPage2Store 5 () rfl⟩

/-- An edge holding a record with the given storage path. -/
def edgeOf (p : String) : Option Edge := some ⟨some ⟨⟨some (strOf p)⟩⟩⟩

/-- A three-page store with pages of sizes 2, 2, 1 linked by cursors. -/
def threePageStore : Store := fun cur =>
  match cur with
  | none => .ok ⟨some [edgeOf "content/docs/p1.mdx", edgeOf "content/docs/p2.mdx"],
                 ⟨true, strOf "c1"⟩⟩
  | some cur =>
    if cur = strOf "c1" then
      .ok ⟨some [edgeOf "content/docs/p3.mdx", edgeOf "content/docs/p4.mdx"],
           ⟨true, strOf "c2"⟩⟩
    else if cur = strOf "c2" then
      .ok ⟨some [edgeOf "content/docs/p5.mdx"], ⟨false, []⟩⟩
    else .error ()

/-- C6: the resolver emits one `RouteParam` per surviving record in
page-then-edge order without sorting: mapping over a concatenation of
pages is the concatenation of the mapped pages, and the concrete
3-page store with sizes 2, 2, 1 yields exactly its 5 records' routes in
that concatenated order. -/
theorem routes_in_page_then_edge_order :
    (∀ es₁ es₂ : List (Option Edge), toRoutes (es₁ ++ es₂) = toRoutes es₁ ++ toRoutes es₂)
  ∧ generateStaticParams threePageStore 2
      = some [{ slug := [strOf "p1"] }, { slug := [strOf "p2"] },
              { slug := [strOf "p3"] }, { slug := [strOf "p4"] },
              { slug := [strOf "p5"] }] := by
  constructor
  · intro es₁ es₂
    simp [toRoutes, List.filter_append]
  · rfl

/-- C1 counterexample: the record whose storage path is the content root
plus separator plus extension, `"content/docs/.mdx"`, is emitted (not
discarded), with the slug `[""]` — a slug containing an empty segment. -/
theorem root_dot_mdx_record_emitted :
    generateStaticParams (singleRecordStore (strOf "content/docs/.mdx")) 0
      = some [{ slug := [[]] }]
  ∧ [] ∈ ({ slug := [[]] } : RouteParam).slug :=
  ⟨rfl, by simp⟩

/-- C1 amended: every emitted slug is a non-empty sequence of segments,
but the segments themselves may be empty strings: the record with storage
path `"content/docs/.mdx"` is emitted with slug `[""]` rather than
discarded. -/
theorem slug_never_nil_but_segments_may_be_empty :
    (∀ (store : Store) (fuel : Nat) (routes : List RouteParam) (r : RouteParam),
        generateStaticParams store fuel = some routes → r ∈ routes → r.slug ≠ [])
  ∧ generateStaticParams (singleRecordStore (strOf "content/docs/.mdx")) 0
      = some [{ slug := [[]] }] := by
  constructor
  · intro store fuel routes r hgen hr
    unfold generateStaticParams at hgen
    cases hrun : resolveRun store fuel with
    | none => rw [hrun] at hgen; exact absurd hgen (by simp)
    | some res =>
      rw [hrun] at hgen
      cases res with
      | error e => simp at hgen; subst hgen; exact absurd hr (by simp)
      | ok rs =>
        simp at hgen
        subst hgen
        unfold resolveRun at hrun
        cases hc : collectAll store fuel with
        | none =>
          rw [hc] at hrun
          exact Option.noConfusion hrun
        | some cres =>
          simp only [hc] at hrun
          cases cres with
          | error e => exact absurd hrun (by simp)
          | ok es =>
            simp at hrun
            subst hrun
            simp only [toRoutes, List.mem_map] at hr
            obtain ⟨p, _, hp⟩ := hr
            rw [← hp]
            exact splitSlash_ne_nil _
  · rfl

/-- Witness for C1 amended: the emitted slug `[""]` is itself a non-empty
list of segments. -/
theorem slug_never_nil_witness :
    ({ slug := [[]] } : RouteParam).slug ≠ [] :=
  slug_never_nil_but_segments_may_be_empty.1
    (singleRecordStore (strOf "content/docs/.mdx")) 0
    [{ slug := [[]] }] { slug := [[]] } rfl (by simp)

/-- C5: a well-formed storage path `"content/docs/<a>/<b>.mdx"` with
non-empty separator-free segments `a` and `b` resolves to exactly the
route param `{ slug: [a, b] }`: extension and root stripped, remainder
split into the two segments. -/
theorem wellformed_path_yields_two_segments (a b : Str)
    (ha : a ≠ []) (hb : b ≠ []) (ha2 : '/' ∉ a) (hb2 : '/' ∉ b) :
    generateStaticParams
        (singleRecordStore (strOf "content/docs/" ++ a ++ strOf "/" ++ b ++ strOf ".mdx")) 0
      = some [{ slug := [a, b] }] := by
  have hpath : strOf "content/docs/" ++ a ++ strOf "/" ++ b ++ strOf ".mdx"
      = (strOf "content/docs/" ++ (a ++ '/' :: b)) ++ strOf ".mdx" := by
    simp [List.append_assoc, show strOf "/" = ['/'] from rfl]
  rw [hpath]
  have hemp : ((strOf "content/docs/" ++ (a ++ '/' :: b)) ++ strOf ".mdx").isEmpty
      = false := rfl
  rw [singleRecord_eval _ hemp 0]
  simp only [slugOfPath, stripMdExt_append_mdx, removeDocsRoot_append,
    splitSlash_append_sep a b ha2, splitSlash_no_sep b hb2]

/-- Witness for C5: the path `"content/docs/guides/intro.mdx"` resolves
to the single route `{ slug: ["guides", "intro"] }`. -/
theorem wellformed_path_witness :
    generateStaticParams
        (singleRecordStore (strOf "content/docs/" ++ strOf "guides" ++ strOf "/"
          ++ strOf "intro" ++ strOf ".mdx")) 0
      = some [{ slug := [strOf "guides", strOf "intro"] }] :=
  wellformed_path_yields_two_segments (strOf "guides") (strOf "intro")
    (by decide) (by decide) (by decide) (by decide)

/-- With enough fuel for the remaining page chain, the pagination loop
completes (it does not run out of fuel). -/
theorem collectLoop_isSome_of_halts (store : Store) :
    ∀ (n : Nat) (pi : PageInfo), haltsWithin store n pi →
      ∀ acc, (collectLoop store n acc pi).isSome = true := by
  intro n
  induction n with
  | zero =>
    intro pi h acc
    simp only [haltsWithin] at h
    simp [collectLoop, h]
  | succ n ih =>
    intro pi h acc
    cases hn : pi.hasNextPage with
    | false => simp [collectLoop, hn]
    | true =>
      simp only [haltsWithin, hn] at h
      rcases h with h | h
      · exact absurd h (by simp)
      · cases hs : store (some pi.endCursor) with
        | error e => simp [collectLoop, hn, hs]
        | ok conn =>
          simp only [hs] at h
          simp only [collectLoop, hn, hs]
          exact ih conn.pageInfo h _

/-- On the store that always reports a next page, the loop never
completes, whatever the fuel. -/
theorem collectLoop_alwaysNext (fuel : Nat) :
    ∀ acc, collectLoop alwaysNextStore fuel acc ⟨true, strOf "c"⟩ = none := by
  induction fuel with
  | zero => intro acc; rfl
  | succ n ih => intro acc; exact ih (acc ++ [])

/-- The resolver on the always-next store returns no value at any fuel. -/
theorem generateStaticParams_alwaysNext (fuel : Nat) :
    generateStaticParams alwaysNextStore fuel = none := by
  simp [generateStaticParams, resolveRun, collectAll, alwaysNextStore,
    collectLoop_alwaysNext]

/-- C3 counterexample: there is no iteration bound treated as a fetch
failure — on a store that erroneously reports `hasNextPage = true` on
every page, the resolution never completes with any value (in particular
never with the empty array a guarded implementation would produce). -/
theorem always_next_page_never_completes :
    ¬ ∃ (fuel : Nat) (routes : List RouteParam),
        generateStaticParams alwaysNextStore fuel = some routes := by
  rintro ⟨fuel, routes, h⟩
  rw [generateStaticParams_alwaysNext fuel] at h
  exact Option.noConfusion h

/-- C3 amended: `generateStaticParams` terminates once the content store
reports no further pages (given fuel covering the page chain, the run
completes), but iteration is not guarded by any upper bound: if the store
erroneously reports `hasNextPage = true` on every page, the loop runs
forever. -/
theorem pagination_terminates_iff_pages_end :
    (∀ (store : Store) (fuel : Nat) (conn : DocsConnection),
        store none = .ok conn → haltsWithin store fuel conn.pageInfo →
        (generateStaticParams store fuel).isSome = true)
  ∧ (∀ fuel : Nat, generateStaticParams alwaysNextStore fuel = none) := by
  constructor
  · intro store fuel conn hf hh
    have hloop := collectLoop_isSome_of_halts store fuel conn.pageInfo hh (conn.edges.getD [])
    unfold generateStaticParams resolveRun collectAll
    rw [hf]
    cases hc : collectLoop store fuel (conn.edges.getD []) conn.pageInfo with
    | none => rw [hc] at hloop; exact absurd hloop (by simp)
    | some cres => cases cres <;> simp [hc]
  · exact generateStaticParams_alwaysNext

/-- Witness for C3 amended: a one-page store (no next page) completes
already at fuel 0, and the always-next store yields nothing at fuel 7. -/
theorem pagination_terminates_witness :
    (generateStaticParams (singleRecordStore (strOf "content/docs/a.mdx")) 0).isSome = true
  ∧ generateStaticParams alwaysNextStore 7 = none :=
  ⟨pagination_terminates_iff_pages_end.1
      (singleRecordStore (strOf "content/docs/a.mdx")) 0
      ⟨some [some ⟨some ⟨⟨some (strOf "content/docs/a.mdx")⟩⟩⟩], ⟨false, []⟩⟩
      rfl rfl,
    pagination_terminates_iff_pages_end.2 7⟩

/-- C7: when the fetched record's seo does not carry a canonical URL
(seo absent, or its `canonicalUrl` falsy), the produced metadata object's
canonical URL is the site URL plus `"/tinadocs/docs/"` plus the joined
slug; a truthy pre-set `seo.canonicalUrl` passes through unchanged. -/
theorem canonical_url_defaulting (siteUrl : Str)
    (fetchSeo : Str → Option DocsSeo) (params : Params) :
    (truthy ((fetchSeo (metadataSlugKey params)).bind DocsSeo.canonicalUrl) = false →
       (generateMetadata siteUrl fetchSeo params).canonicalUrl
         = some (canonicalDefault siteUrl (metadataSlugKey params)))
  ∧ (∀ u : Str, fetchSeo (metadataSlugKey params) = some { canonicalUrl := some u } →
       u ≠ [] →
       (generateMetadata siteUrl fetchSeo params).canonicalUrl = some u) := by
  constructor
  · intro h
    cases hf : fetchSeo (metadataSlugKey params) with
    | none => simp [generateMetadata, getSeo, withCanonical, hf]
    | some s =>
      rw [hf] at h
      have h' : truthy s.canonicalUrl = false := h
      simp [generateMetadata, getSeo, withCanonical, hf, h']
  · intro u hf hu
    have ht : truthy (some u) = true := by
      cases u with
      | nil => exact absurd rfl hu
      | cons c cs => rfl
    simp [generateMetadata, getSeo, withCanonical, hf, ht]

/-- Witness for C7: with no seo on the record the default is produced,
and a pre-set canonical URL survives unchanged. -/
theorem canonical_url_defaulting_witness :
    (generateMetadata (strOf "https://concordium.com") (fun _ => none)
        ⟨some [strOf "protocol"]⟩).canonicalUrl
      = some (canonicalDefault (strOf "https://concordium.com") (strOf "protocol"))
  ∧ (generateMetadata (strOf "https://concordium.com")
        (fun _ => some { canonicalUrl := some (strOf "https://preset.example") })
        ⟨some [strOf "protocol"]⟩).canonicalUrl
      = some (strOf "https://preset.example") :=
  ⟨(canonical_url_defaulting (strOf "https://concordium.com") (fun _ => none)
      ⟨some [strOf "protocol"]⟩).1 rfl,
    (canonical_url_defaulting (strOf "https://concordium.com")
      (fun _ => some { canonicalUrl := some (strOf "https://preset.example") })
      ⟨some [strOf "protocol"]⟩).2 (strOf "https://preset.example") rfl (by decide)⟩

/-- C8: a fetched record whose storage path is absent, `null`, or the
empty string is silently skipped: it contributes no route, no error is
raised, and the resolver's output is exactly the routes of the remaining
records. -/
theorem malformed_record_skipped (store : Store) (fuel : Nat)
    (pre post : List (Option Edge)) (e : Option Edge)
    (hskip : truthy (pathOfEdge e) = false)
    (hrun : collectAll store fuel = some (.ok (pre ++ e :: post))) :
    generateStaticParams store fuel = some (toRoutes (pre ++ post)) := by
  have hmap : toRoutes (pre ++ e :: post) = toRoutes (pre ++ post) := by
    simp [toRoutes, List.filter_append, List.filter_cons, hskip]
  simp [generateStaticParams, resolveRun, hrun, hmap]

/-- A one-page store whose middle record has an empty storage path. -/
def badMiddleStore : Store := fun _ =>
  .ok ⟨some [edgeOf "content/docs/a.mdx", some ⟨some ⟨⟨some []⟩⟩⟩,
             edgeOf "content/docs/b.mdx"],
       ⟨false, []⟩⟩

/-- Witness for C8: the empty-path record in the middle is skipped and
the two surrounding records still resolve. -/
theorem malformed_record_skipped_witness :
    generateStaticParams badMiddleStore 0
      = some (toRoutes [edgeOf "content/docs/a.mdx", edgeOf "content/docs/b.mdx"]) :=
  malformed_record_skipped badMiddleStore 0
    [edgeOf "content/docs/a.mdx"] [edgeOf "content/docs/b.mdx"]
    (some ⟨some ⟨⟨some []⟩⟩⟩) rfl rfl

/-- C10: a page response whose `edges` field is `null`/absent (the first
page included) behaves exactly as one with an explicit empty list: no
records appended, no error raised, pagination continuing as directed by
`pageInfo.hasNextPage`. -/
theorem null_edges_treated_as_empty (store : Store) (fuel : Nat) :
    generateStaticParams (normStore store) fuel = generateStaticParams store fuel := by
  have hloop : ∀ (f : Nat) (acc : List (Option Edge)) (pi : PageInfo),
      collectLoop (normStore store) f acc pi = collectLoop store f acc pi := by
    intro f
    induction f with
    | zero =>
      intro acc pi
      cases hn : pi.hasNextPage <;> simp [collectLoop, hn]
    | succ n ih =>
      intro acc pi
      cases hn : pi.hasNextPage with
      | false => simp [collectLoop, hn]
      | true =>
        cases hs : store (some pi.endCursor) with
        | error e => simp [collectLoop, hn, normStore, hs, Except.map]
        | ok conn =>
          simp [collectLoop, hn, normStore, hs, Except.map, normConn, ih]
  unfold generateStaticParams resolveRun collectAll
  cases hf : store none with
  | error e => simp [normStore, hf, Except.map]
  | ok conn => simp [normStore, hf, Except.map, normConn, hloop]

end TinaDocs
